import Mathlib

/-!
# Verification of the Hot-Take staking ledger and settlement engine

A shallow embedding of the core of the repository: the vote (stake)
transaction of `POST /api/votes`, `DatabaseStorage.resolvePrediction`,
`DatabaseStorage.updatePredictionStats` and `DatabaseStorage.updateUserStats`
from `server/storage.ts` and the route layer, over an explicit database
state.  Ids are `Nat`; SQL `integer` columns are `Int`; timestamps are `Int`
instants; the rollback of `db.transaction` is modelled by the `*Run`
wrappers, which keep the pre-state when the transaction body throws.

SQL integer division (Postgres truncates toward zero) is `Int.tdiv`;
`Math.floor` of a real quotient of integers is `Int.fdiv` (floor division);
JavaScript `number` arithmetic on the modest integer magnitudes the ledger
handles is modelled as exact integer arithmetic.
-/

/-- A row of the `users` table: the ledger-relevant columns
(`points`, `accuracy_score`, `total_predictions`, `correct_predictions`).
`accuracy_score` is a `decimal(5,2)` column, but every value the core writes
to it is produced by integer arithmetic, so it is carried as `Int`. -/
structure User where
  points : Int
  accuracyScore : Int
  totalPredictions : Int
  correctPredictions : Int
deriving DecidableEq

/-- A row of the `predictions` table: owner, deadline, lifecycle and the
aggregate columns maintained by `updatePredictionStats`. -/
structure Prediction where
  userId : Nat
  resolutionDate : Int
  resolved : Bool
  resolvedValue : Option Bool
  totalStakes : Int
  totalPoints : Int
  yesVotes : Int
  noVotes : Int
  yesPoints : Int
  noPoints : Int
deriving DecidableEq

/-- A row of the `votes` table. -/
structure Vote where
  userId : Nat
  predictionId : Nat
  stance : Bool
  pointsStaked : Int
deriving DecidableEq

/-- The database state the core touches: the `users` table (keyed by id),
the `predictions` table as a list of (id, row) pairs — kept enumerable
because `updateUserStats` counts rows — and the `votes` table. -/
structure DBState where
  users : Nat → Option User
  predictions : List (Nat × Prediction)
  votes : List Vote

/-- `UPDATE users SET ... WHERE id = uid`: applies `f` to the row with id
`uid` when it exists, a no-op otherwise. -/
def updateUser (s : DBState) (uid : Nat) (f : User → User) : DBState :=
  { s with users := fun n => if n = uid then (s.users n).map f else s.users n }

/-- `SELECT * FROM predictions WHERE id = pid`. -/
def lookupPrediction (s : DBState) (pid : Nat) : Option Prediction :=
  (s.predictions.find? (fun e => e.1 == pid)).map (·.2)

/-- `UPDATE predictions SET ... WHERE id = pid`. -/
def updatePrediction (s : DBState) (pid : Nat) (f : Prediction → Prediction) :
    DBState :=
  { s with predictions :=
      s.predictions.map (fun e => if e.1 == pid then (e.1, f e.2) else e) }

/-- `SELECT * FROM votes WHERE prediction_id = pid`. -/
def votesOn (s : DBState) (pid : Nat) : List Vote :=
  s.votes.filter (fun v => v.predictionId == pid)

/-- `reduce((sum, v) => sum + v.pointsStaked, 0)` over a vote list. -/
def stakeSum (vs : List Vote) : Int :=
  vs.foldl (fun acc v => acc + v.pointsStaked) 0

/-- `DatabaseStorage.updatePredictionStats`: recomputes the six aggregate
columns of prediction `pid` from its current vote rows (the SQL aggregate
query always yields one row; a null `sum` over zero rows is coalesced to 0
by `|| 0`, which matches the empty-list sums here). -/
def updatePredictionStats (s : DBState) (pid : Nat) : DBState :=
  let vs := votesOn s pid
  updatePrediction s pid (fun p =>
    { p with
      totalStakes := (vs.length : Int)
      totalPoints := stakeSum vs
      yesVotes := ((vs.filter (fun v => v.stance)).length : Int)
      noVotes := ((vs.filter (fun v => !v.stance)).length : Int)
      yesPoints := stakeSum (vs.filter (fun v => v.stance))
      noPoints := stakeSum (vs.filter (fun v => !v.stance)) })

/-- `count(distinct predictions.id)` over
`users LEFT JOIN predictions ON predictions.user_id = uid WHERE users.id = uid`:
the number of predictions authored by `uid` (prediction ids are primary
keys, so counting rows counts distinct ids). -/
def countAuthored (s : DBState) (uid : Nat) : Int :=
  ((s.predictions.filter (fun e => e.2.userId == uid)).length : Int)

/-- `DatabaseStorage.updateUserStats`: overwrites `total_predictions` of
user `uid` with the count of predictions that user has authored. -/
def updateUserStats (s : DBState) (uid : Nat) : DBState :=
  updateUser s uid (fun u => { u with totalPredictions := countAuthored s uid })

/-- `DatabaseStorage.getUserVote`:
`SELECT * FROM votes WHERE user_id = uid AND prediction_id = pid`. -/
def getUserVote (s : DBState) (uid pid : Nat) : Option Vote :=
  s.votes.find? (fun v => v.userId == uid && v.predictionId == pid)

/-- The business-rule failures of the vote route: the two errors thrown in
the transaction plus the Zod rejection of the request body. -/
inductive VoteError where
  | validationFailed
  | alreadyVoted
  | insufficientPoints
deriving DecidableEq

/-- `insertVoteSchema = createInsertSchema(votes).omit({id, userId, createdAt})`:
the generated Zod validator checks field shape only (string prediction id,
boolean stance, numeric pointsStaked); it imposes no positivity — or any
other range — refinement on `pointsStaked`, so every integer amount passes. -/
def insertVoteSchemaAccepts (pointsStaked : Int) : Bool :=
  true

/-- The `db.transaction` body of `POST /api/votes` (routes, transactional
variant), preceded by `insertVoteSchema.parse`: reject on schema, fail on an
existing (user, prediction) vote, fail when the user row is missing or
`points < pointsStaked`, else insert the vote, debit the stake, recompute
the prediction aggregates and the user stats. -/
def placeStake (s : DBState) (uid pid : Nat) (stance : Bool)
    (pointsStaked : Int) : Except VoteError DBState :=
  if insertVoteSchemaAccepts pointsStaked = false then .error .validationFailed
  else if (getUserVote s uid pid).isSome then .error .alreadyVoted
  else
    match s.users uid with
    | none => .error .insufficientPoints
    | some user =>
      if user.points < pointsStaked then .error .insufficientPoints
      else
        let s1 : DBState := { s with votes := s.votes ++ [⟨uid, pid, stance, pointsStaked⟩] }
        let s2 := updateUser s1 uid (fun u => { u with points := u.points - pointsStaked })
        let s3 := updatePredictionStats s2 pid
        let s4 := updateUserStats s3 uid
        .ok s4

/-- The four business-rule failures of `resolvePrediction`, in the order the
code raises them. -/
inductive ResolveError where
  | notFound
  | notOwner
  | alreadyResolved
  | tooEarly
deriving DecidableEq

/-- The amount credited to one winning vote:
`winner.pointsStaked + winnings`, with
`winnings = Math.floor(winner.pointsStaked / totalWinnerPoints * totalLoserPoints)`
guarded by `totalLoserPoints > 0 && totalWinnerPoints > 0`. -/
def winnerCredit (totalWinnerPoints totalLoserPoints : Int) (v : Vote) : Int :=
  v.pointsStaked +
    (if 0 < totalLoserPoints ∧ 0 < totalWinnerPoints
     then (v.pointsStaked * totalLoserPoints).fdiv totalWinnerPoints
     else 0)

/-- The `for (const winner of winners)` loop: one
`UPDATE users SET points = points + (stake + winnings)` per winner. -/
def creditWinners (tw tl : Int) : List Vote → DBState → DBState
  | [], s => s
  | w :: ws, s =>
    creditWinners tw tl ws
      (updateUser s w.userId
        (fun u => { u with points := u.points + winnerCredit tw tl w }))

/-- One iteration of the `for (const vote of allVotes)` stats loop: a single
`UPDATE` whose column expressions all read the OLD row, with the accuracy
expression `((correct_predictions + c) / (total_predictions + 1)) * 100`
evaluated by Postgres integer division (`Int.tdiv`). -/
def applyVoteStats (outc : Bool) (st : DBState) (v : Vote) : DBState :=
  let c : Int := if v.stance = outc then 1 else 0
  updateUser st v.userId (fun u =>
    { u with
      totalPredictions := u.totalPredictions + 1
      correctPredictions := u.correctPredictions + c
      accuracyScore := ((u.correctPredictions + c).tdiv (u.totalPredictions + 1)) * 100 })

/-- The `for (const vote of allVotes)` stats loop over a vote list. -/
def applyAllVoteStats (outc : Bool) : List Vote → DBState → DBState
  | [], s => s
  | v :: vs, s => applyAllVoteStats outc vs (applyVoteStats outc s v)

/-- Step 2 of `resolvePrediction`:
`UPDATE predictions SET resolved = true, resolved_value = rv WHERE id = pid`. -/
def markResolved (s : DBState) (pid : Nat) (rv : Bool) : DBState :=
  updatePrediction s pid
    (fun q => { q with resolved := true, resolvedValue := some rv })

/-- `allVotes.filter(v => v.stance === winningStance)`. -/
def winnersOf (s : DBState) (pid : Nat) (rv : Bool) : List Vote :=
  (votesOn s pid).filter (fun v => v.stance == rv)

/-- `allVotes.filter(v => v.stance !== winningStance)`. -/
def losersOf (s : DBState) (pid : Nat) (rv : Bool) : List Vote :=
  (votesOn s pid).filter (fun v => v.stance != rv)

/-- `totalWinnerPoints = winners.reduce((sum, v) => sum + v.pointsStaked, 0)`. -/
def totalWinnerPointsOf (s : DBState) (pid : Nat) (rv : Bool) : Int :=
  stakeSum (winnersOf s pid rv)

/-- `totalLoserPoints = losers.reduce((sum, v) => sum + v.pointsStaked, 0)`. -/
def totalLoserPointsOf (s : DBState) (pid : Nat) (rv : Bool) : Int :=
  stakeSum (losersOf s pid rv)

/-- Steps 2–5 of `resolvePrediction` (after the precondition checks): mark
the row resolved, load its votes, partition them, credit the winners (loop
run only when `winners.length > 0`) and run the per-voter stats loop. -/
def settle (s : DBState) (pid : Nat) (rv : Bool) : DBState :=
  let s1 := markResolved s pid rv
  let s2 :=
    if 0 < (winnersOf s1 pid rv).length
    then creditWinners (totalWinnerPointsOf s1 pid rv) (totalLoserPointsOf s1 pid rv)
           (winnersOf s1 pid rv) s1
    else s1
  applyAllVoteStats rv (votesOn s1 pid) s2

/-- `DatabaseStorage.resolvePrediction`: the four precondition checks in
source order (`resolutionDate > now` is `now < resolutionDate`), then the
settlement body `settle`. -/
def resolvePrediction (s : DBState) (pid uid : Nat) (resolvedValue : Bool)
    (now : Int) : Except ResolveError DBState :=
  match lookupPrediction s pid with
  | none => .error .notFound
  | some p =>
    if p.userId ≠ uid then .error .notOwner
    else if p.resolved then .error .alreadyResolved
    else if now < p.resolutionDate then .error .tooEarly
    else .ok (settle s pid resolvedValue)

/-- The vote endpoint as seen from outside the transaction: on a thrown
error `db.transaction` rolls back, so the pre-state survives. -/
def placeStakeRun (s : DBState) (uid pid : Nat) (stance : Bool) (amt : Int) :
    DBState × Option VoteError :=
  match placeStake s uid pid stance amt with
  | .ok s' => (s', none)
  | .error e => (s, some e)

/-- The resolve endpoint as seen from outside the transaction: on a thrown
error `db.transaction` rolls back, so the pre-state survives. -/
def resolveRun (s : DBState) (pid uid : Nat) (rv : Bool) (now : Int) :
    DBState × Option ResolveError :=
  match resolvePrediction s pid uid rv now with
  | .ok s' => (s', none)
  | .error e => (s, some e)

/-- Projection: the balance of user `uid`, when the row exists. -/
def userPoints (s : DBState) (uid : Nat) : Option Int :=
  (s.users uid).map (·.points)

/-! ### Basic state lemmas -/

theorem updateUser_users_self (s : DBState) (uid : Nat) (f : User → User) :
    (updateUser s uid f).users uid = (s.users uid).map f := by
  simp [updateUser]

theorem updateUser_users_ne (s : DBState) {n uid : Nat} (h : n ≠ uid)
    (f : User → User) : (updateUser s uid f).users n = s.users n := by
  simp [updateUser, h]

theorem updateUser_votes (s : DBState) (uid : Nat) (f : User → User) :
    (updateUser s uid f).votes = s.votes := rfl

theorem updateUser_predictions (s : DBState) (uid : Nat) (f : User → User) :
    (updateUser s uid f).predictions = s.predictions := rfl

theorem updatePrediction_votes (s : DBState) (pid : Nat)
    (f : Prediction → Prediction) : (updatePrediction s pid f).votes = s.votes := rfl

theorem updatePrediction_users (s : DBState) (pid : Nat)
    (f : Prediction → Prediction) : (updatePrediction s pid f).users = s.users := rfl

theorem votesOn_eq_of_votes {s t : DBState} (h : s.votes = t.votes) (pid : Nat) :
    votesOn s pid = votesOn t pid := by
  unfold votesOn; rw [h]

theorem lookupPrediction_eq_of_predictions {s t : DBState}
    (h : s.predictions = t.predictions) (pid : Nat) :
    lookupPrediction s pid = lookupPrediction t pid := by
  unfold lookupPrediction; rw [h]

theorem countAuthored_eq_of_predictions {s t : DBState}
    (h : s.predictions = t.predictions) (uid : Nat) :
    countAuthored s uid = countAuthored t uid := by
  unfold countAuthored; rw [h]

theorem find?_map_entry (pid : Nat) (f : Prediction → Prediction) :
    ∀ l : List (Nat × Prediction),
      (l.map (fun e => if e.1 == pid then (e.1, f e.2) else e)).find?
          (fun e => e.1 == pid)
        = (l.find? (fun e => e.1 == pid)).map (fun e => (e.1, f e.2))
  | [] => rfl
  | e :: l => by
    rw [List.map_cons]
    by_cases h : e.1 = pid
    · have hb : (e.1 == pid) = true := beq_iff_eq.mpr h
      simp [List.find?_cons, hb, -List.find?_map]
    · have hb : (e.1 == pid) = false := by simp [h]
      simp [List.find?_cons, hb, -List.find?_map]
      simpa using find?_map_entry pid f l

theorem find?_map_entry_ne {pid m : Nat} (hne : m ≠ pid)
    (f : Prediction → Prediction) :
    ∀ l : List (Nat × Prediction),
      (l.map (fun e => if e.1 == pid then (e.1, f e.2) else e)).find?
          (fun e => e.1 == m)
        = l.find? (fun e => e.1 == m)
  | [] => rfl
  | e :: l => by
    rw [List.map_cons]
    by_cases h : e.1 = pid
    · have hb : (e.1 == pid) = true := beq_iff_eq.mpr h
      have hm : (e.1 == m) = false := by simp [h, Ne.symm hne]
      simp [List.find?_cons, hb, hm, -List.find?_map]
      simpa using find?_map_entry_ne hne f l
    · have hb : (e.1 == pid) = false := by simp [h]
      by_cases h2 : e.1 = m
      · have hm : (e.1 == m) = true := beq_iff_eq.mpr h2
        simp [List.find?_cons, hb, hm, -List.find?_map]
      · have hm : (e.1 == m) = false := by simp [h2]
        simp [List.find?_cons, hb, hm, -List.find?_map]
        simpa using find?_map_entry_ne hne f l

theorem lookupPrediction_updatePrediction_self (s : DBState) (pid : Nat)
    (f : Prediction → Prediction) :
    lookupPrediction (updatePrediction s pid f) pid
      = (lookupPrediction s pid).map f := by
  unfold lookupPrediction updatePrediction
  rw [find?_map_entry]
  cases s.predictions.find? (fun e => e.1 == pid) <;> rfl

theorem lookupPrediction_updatePrediction_ne (s : DBState) {pid m : Nat}
    (hne : m ≠ pid) (f : Prediction → Prediction) :
    lookupPrediction (updatePrediction s pid f) m = lookupPrediction s m := by
  unfold lookupPrediction updatePrediction
  rw [find?_map_entry_ne hne]

theorem creditWinners_votes (tw tl : Int) :
    ∀ (ws : List Vote) (s : DBState), (creditWinners tw tl ws s).votes = s.votes
  | [], _ => rfl
  | w :: ws, s => by
    rw [creditWinners, creditWinners_votes tw tl ws, updateUser_votes]

theorem creditWinners_predictions (tw tl : Int) :
    ∀ (ws : List Vote) (s : DBState),
      (creditWinners tw tl ws s).predictions = s.predictions
  | [], _ => rfl
  | w :: ws, s => by
    rw [creditWinners, creditWinners_predictions tw tl ws, updateUser_predictions]

theorem applyVoteStats_votes (outc : Bool) (s : DBState) (v : Vote) :
    (applyVoteStats outc s v).votes = s.votes := rfl

theorem applyVoteStats_predictions (outc : Bool) (s : DBState) (v : Vote) :
    (applyVoteStats outc s v).predictions = s.predictions := rfl

theorem applyAllVoteStats_votes (outc : Bool) :
    ∀ (vs : List Vote) (s : DBState), (applyAllVoteStats outc vs s).votes = s.votes
  | [], _ => rfl
  | v :: vs, s => by
    rw [applyAllVoteStats, applyAllVoteStats_votes outc vs, applyVoteStats_votes]

theorem applyAllVoteStats_predictions (outc : Bool) :
    ∀ (vs : List Vote) (s : DBState),
      (applyAllVoteStats outc vs s).predictions = s.predictions
  | [], _ => rfl
  | v :: vs, s => by
    rw [applyAllVoteStats, applyAllVoteStats_predictions outc vs,
      applyVoteStats_predictions]

theorem applyVoteStats_userPoints (outc : Bool) (s : DBState) (v : Vote)
    (n : Nat) : userPoints (applyVoteStats outc s v) n = userPoints s n := by
  unfold applyVoteStats userPoints
  by_cases h : n = v.userId
  · rw [h, updateUser_users_self]
    cases s.users v.userId <;> rfl
  · rw [updateUser_users_ne _ h]

theorem applyAllVoteStats_userPoints (outc : Bool) :
    ∀ (vs : List Vote) (s : DBState) (n : Nat),
      userPoints (applyAllVoteStats outc vs s) n = userPoints s n
  | [], _, _ => rfl
  | v :: vs, s, n => by
    rw [applyAllVoteStats, applyAllVoteStats_userPoints outc vs,
      applyVoteStats_userPoints]

theorem creditWinners_users_not_mem (tw tl : Int) :
    ∀ (ws : List Vote) (s : DBState) (n : Nat), n ∉ ws.map (·.userId) →
      (creditWinners tw tl ws s).users n = s.users n
  | [], _, _, _ => rfl
  | w :: ws, s, n, h => by
    simp only [List.map_cons, List.mem_cons, not_or] at h
    rw [creditWinners, creditWinners_users_not_mem tw tl ws _ _ h.2,
      updateUser_users_ne _ h.1]

theorem creditWinners_userPoints_mem (tw tl : Int) :
    ∀ (ws : List Vote) (s : DBState) (v : Vote),
      ws.Pairwise (fun a b => a.userId ≠ b.userId) → v ∈ ws →
      userPoints (creditWinners tw tl ws s) v.userId
        = (userPoints s v.userId).map (fun x => x + winnerCredit tw tl v)
  | [], _, v, _, hv => absurd hv (List.not_mem_nil v)
  | w :: ws, s, v, hp, hv => by
    rw [List.pairwise_cons] at hp
    rcases List.mem_cons.mp hv with rfl | hv
    · have hnm : v.userId ∉ ws.map (·.userId) := by
        simp only [List.mem_map, not_exists, not_and]
        intro b hb
        exact fun hbv => (hp.1 b hb) hbv.symm
      rw [creditWinners]
      unfold userPoints
      rw [creditWinners_users_not_mem tw tl ws _ _ hnm, updateUser_users_self]
      cases s.users v.userId <;> rfl
    · have hne : v.userId ≠ w.userId := fun h => (hp.1 v hv) h.symm
      rw [creditWinners, creditWinners_userPoints_mem tw tl ws _ v hp.2 hv]
      unfold userPoints
      rw [updateUser_users_ne _ hne]

/-! ### Arithmetic lemmas for the payout computation -/

theorem stakeSum_shift (vs : List Vote) :
    ∀ a : Int, vs.foldl (fun acc v => acc + v.pointsStaked) a = a + stakeSum vs := by
  induction vs with
  | nil => intro a; simp [stakeSum]
  | cons v vs ih =>
    intro a
    show vs.foldl _ (a + v.pointsStaked) = a + stakeSum (v :: vs)
    rw [ih]
    show a + v.pointsStaked + stakeSum vs
      = a + vs.foldl (fun acc v => acc + v.pointsStaked) (0 + v.pointsStaked)
    rw [ih]
    ring

theorem stakeSum_cons (v : Vote) (vs : List Vote) :
    stakeSum (v :: vs) = v.pointsStaked + stakeSum vs := by
  show vs.foldl _ (0 + v.pointsStaked) = _
  rw [stakeSum_shift]
  ring

theorem stakeSum_append_single (vs : List Vote) (v : Vote) :
    stakeSum (vs ++ [v]) = stakeSum vs + v.pointsStaked := by
  unfold stakeSum
  rw [List.foldl_append]
  show (stakeSum vs) + v.pointsStaked = _
  rfl

theorem stakeSum_nonneg {vs : List Vote}
    (h : ∀ v ∈ vs, 0 ≤ v.pointsStaked) : 0 ≤ stakeSum vs := by
  induction vs with
  | nil => simp [stakeSum]
  | cons v vs ih =>
    rw [stakeSum_cons]
    have h1 := h v (List.mem_cons_self v vs)
    have h2 := ih (fun w hw => h w (List.mem_cons_of_mem v hw))
    omega

theorem stakeSum_pos_of_mem {vs : List Vote} {v : Vote} (hv : v ∈ vs)
    (h : ∀ w ∈ vs, 0 < w.pointsStaked) : 0 < stakeSum vs := by
  induction vs with
  | nil => exact absurd hv (List.not_mem_nil v)
  | cons w ws ih =>
    rw [stakeSum_cons]
    have h1 := h w (List.mem_cons_self w ws)
    have h2 : 0 ≤ stakeSum ws :=
      stakeSum_nonneg (fun x hx => le_of_lt (h x (List.mem_cons_of_mem w hx)))
    omega

theorem ediv_add_ediv_le {d : Int} (hd : 0 < d) (a b : Int) :
    a / d + b / d ≤ (a + b) / d := by
  rw [Int.le_ediv_iff_mul_le hd, add_mul]
  exact add_le_add (Int.ediv_mul_le a hd.ne') (Int.ediv_mul_le b hd.ne')

theorem winnings_sum_le {tw tl : Int} (htw : 0 < tw) :
    ∀ ws : List Vote,
      ((ws.map (fun v => (v.pointsStaked * tl).fdiv tw)).sum
        ≤ (stakeSum ws * tl).fdiv tw)
  | [] => by simp [stakeSum, Int.zero_fdiv]
  | v :: ws => by
    have h1 := @winnings_sum_le tw tl htw ws
    rw [List.map_cons, List.sum_cons, stakeSum_cons, add_mul]
    simp only [Int.fdiv_eq_ediv _ htw.le] at h1 ⊢
    exact le_trans (add_le_add_left h1 _) (ediv_add_ediv_le htw _ _)

theorem creditSum_split (tw tl : Int) (ws : List Vote) :
    (ws.map (winnerCredit tw tl)).sum
      = stakeSum ws
        + (ws.map (fun v =>
            if 0 < tl ∧ 0 < tw then (v.pointsStaked * tl).fdiv tw else 0)).sum := by
  induction ws with
  | nil => simp [stakeSum]
  | cons v ws ih =>
    rw [List.map_cons, List.sum_cons, stakeSum_cons, List.map_cons,
      List.sum_cons, ih, winnerCredit]
    ring

/-! ### Concrete database states used as test fixtures -/

/-- A user row with the given balance and zeroed stats. -/
def mkUser (pts : Int) : User := ⟨pts, 0, 0, 0⟩

/-- An open market owned by user 2, deadline at instant 0, zero aggregates. -/
def openMarket : Prediction := ⟨2, 0, false, none, 0, 0, 0, 0, 0, 0⟩

/-- The same market already resolved (outcome `true`). -/
def resolvedMarket : Prediction :=
  { openMarket with resolved := true, resolvedValue := some true }

/-- Market 0 is already resolved; user 1 holds 100 points and has not voted. -/
def stateResolvedMarket : DBState :=
  ⟨fun n => if n = 1 then some (mkUser 100) else none, [(0, resolvedMarket)], []⟩

/-- Market 0 is open; user 1 holds 100 points and has not voted. -/
def stateOpenMarket : DBState :=
  ⟨fun n => if n = 1 then some (mkUser 100) else none, [(0, openMarket)], []⟩

/-- A voter with one lifetime prediction, one of them correct. -/
def statsVoter : User := ⟨40, 100, 1, 1⟩

/-- Open market 0 owned by user 2; user 3 (stats 1 correct of 1) has staked
10 points on "no". -/
def stateAccuracy : DBState :=
  ⟨fun n => if n = 2 then some (mkUser 100)
            else if n = 3 then some statsVoter else none,
   [(0, openMarket)], [⟨3, 0, false, 10⟩]⟩

/-- **C4** (code bug evidence): the vote transaction of `POST /api/votes`
checks only "already voted" and "insufficient points"; it never loads the
market or re-checks `resolved`, so a stake on an already-resolved market is
NOT rejected: the transaction commits, the vote row is inserted, and the
caller's balance is debited (here market 0 is resolved, yet user 1's stake
of 30 succeeds and their balance drops from 100 to 70). -/
theorem stake_on_resolved_market_not_rejected :
    (lookupPrediction stateResolvedMarket 0).map (·.resolved) = some true ∧
    (placeStakeRun stateResolvedMarket 1 0 true 30).2 = none ∧
    (placeStakeRun stateResolvedMarket 1 0 true 30).1.votes = [⟨1, 0, true, 30⟩] ∧
    userPoints (placeStakeRun stateResolvedMarket 1 0 true 30).1 1 = some 70 := by
  refine ⟨by decide, by decide, by decide, by decide⟩

/-- **C5** (code bug evidence): `insertVoteSchema` carries no positivity
refinement, so a non-positive `pointsStaked` is not rejected before the
transaction: a stake of −5 passes validation and the balance guard
(`100 < −5` is false), the vote row is inserted, and the "debit" increases
user 1's balance from 100 to 105; a stake of 0 is accepted likewise. -/
theorem nonpositive_stake_not_rejected :
    insertVoteSchemaAccepts (-5) = true ∧
    (placeStakeRun stateOpenMarket 1 0 true (-5)).2 = none ∧
    (placeStakeRun stateOpenMarket 1 0 true (-5)).1.votes = [⟨1, 0, true, -5⟩] ∧
    userPoints (placeStakeRun stateOpenMarket 1 0 true (-5)).1 1 = some 105 ∧
    (placeStakeRun stateOpenMarket 1 0 false 0).2 = none ∧
    (placeStakeRun stateOpenMarket 1 0 false 0).1.votes = [⟨1, 0, false, 0⟩] := by
  refine ⟨by decide, by decide, by decide, by decide, by decide, by decide⟩

/-- **C8** (code bug evidence): after a successful resolve the lifetime
counters increment as the claim says (voter 3 goes from 1-of-1 to 1-of-2),
but the accuracy expression
`((correct_predictions + c) / (total_predictions + 1)) * 100` runs in
Postgres integer division over `integer` columns, so voter 3's stored
accuracy becomes `(1 / 2) * 100 = 0`, while the claim's formula
`lifetimeCorrect / lifetimePredictionsMade * 100` gives 50. -/
theorem resolve_accuracy_integer_division :
    (resolveRun stateAccuracy 0 2 true 10).2 = none ∧
    ((resolveRun stateAccuracy 0 2 true 10).1.users 3).map (·.totalPredictions)
      = some 2 ∧
    ((resolveRun stateAccuracy 0 2 true 10).1.users 3).map (·.correctPredictions)
      = some 1 ∧
    ((resolveRun stateAccuracy 0 2 true 10).1.users 3).map (·.accuracyScore)
      = some 0 ∧
    ((1 : ℚ) / 2) * 100 = 50 := by
  refine ⟨by decide, by decide, by decide, by decide, by norm_num⟩

/-! ### Structure of a successful resolve -/

theorem markResolved_votes (s : DBState) (pid : Nat) (rv : Bool) :
    (markResolved s pid rv).votes = s.votes := rfl

theorem markResolved_users (s : DBState) (pid : Nat) (rv : Bool) :
    (markResolved s pid rv).users = s.users := rfl

theorem settle_votes (s : DBState) (pid : Nat) (rv : Bool) :
    (settle s pid rv).votes = s.votes := by
  unfold settle
  rw [applyAllVoteStats_votes]
  split
  · rw [creditWinners_votes, markResolved_votes]
  · rw [markResolved_votes]

theorem settle_predictions (s : DBState) (pid : Nat) (rv : Bool) :
    (settle s pid rv).predictions = (markResolved s pid rv).predictions := by
  unfold settle
  rw [applyAllVoteStats_predictions]
  split
  · rw [creditWinners_predictions]
  · rfl

theorem resolve_ok_elim {s : DBState} {pid uid : Nat} {rv : Bool} {now : Int}
    {s' : DBState} (h : resolvePrediction s pid uid rv now = .ok s') :
    ∃ p, lookupPrediction s pid = some p ∧ p.userId = uid ∧
      p.resolved = false ∧ ¬ now < p.resolutionDate ∧ s' = settle s pid rv := by
  unfold resolvePrediction at h
  cases hl : lookupPrediction s pid with
  | none => rw [hl] at h; exact Except.noConfusion h
  | some p =>
    rw [hl] at h
    dsimp only at h
    by_cases h1 : p.userId ≠ uid
    · rw [if_pos h1] at h; exact Except.noConfusion h
    · rw [if_neg h1] at h
      by_cases h2 : p.resolved = true
      · rw [if_pos h2] at h; exact Except.noConfusion h
      · rw [if_neg h2] at h
        by_cases h3 : now < p.resolutionDate
        · rw [if_pos h3] at h; exact Except.noConfusion h
        · rw [if_neg h3] at h
          exact ⟨p, rfl, not_not.mp h1, by simpa using h2, h3,
            (Except.ok.inj h).symm⟩

/-- **C3**: `resolve` checks its preconditions in source order — `NotFound`,
then `NotOwner`, then `AlreadyResolved`, then `TooEarly` — and on every
failure the transaction rolls back, leaving the whole state unchanged
(`resolveRun` returns the pre-state paired with the error); consequently a
second `resolve` on a market just resolved fails with `AlreadyResolved`
for any outcome and time, so no second payout or stats change occurs. -/
theorem resolve_precondition_order (s : DBState) (pid uid : Nat) (rv : Bool)
    (now : Int) :
    (lookupPrediction s pid = none →
      resolveRun s pid uid rv now = (s, some .notFound)) ∧
    (∀ p, lookupPrediction s pid = some p → p.userId ≠ uid →
      resolveRun s pid uid rv now = (s, some .notOwner)) ∧
    (∀ p, lookupPrediction s pid = some p → p.userId = uid →
      p.resolved = true →
      resolveRun s pid uid rv now = (s, some .alreadyResolved)) ∧
    (∀ p, lookupPrediction s pid = some p → p.userId = uid →
      p.resolved = false → now < p.resolutionDate →
      resolveRun s pid uid rv now = (s, some .tooEarly)) ∧
    (∀ s', resolvePrediction s pid uid rv now = .ok s' →
      ∀ rv' now', resolveRun s' pid uid rv' now' = (s', some .alreadyResolved)) := by
  refine ⟨?_, ?_, ?_, ?_, ?_⟩
  · intro hl
    unfold resolveRun resolvePrediction
    rw [hl]
  · intro p hl h1
    unfold resolveRun resolvePrediction
    rw [hl]
    dsimp only
    rw [if_pos h1]
  · intro p hl h1 h2
    unfold resolveRun resolvePrediction
    rw [hl]
    dsimp only
    rw [if_neg (by simp [h1]), if_pos h2]
  · intro p hl h1 h2 h3
    unfold resolveRun resolvePrediction
    rw [hl]
    dsimp only
    rw [if_neg (by simp [h1]), if_neg (by simp [h2]), if_pos h3]
  · intro s' h rv' now'
    obtain ⟨p, hl, hu, _, _, hs⟩ := resolve_ok_elim h
    have hl' : lookupPrediction s' pid
        = some { p with resolved := true, resolvedValue := some rv } := by
      rw [hs,
        lookupPrediction_eq_of_predictions (settle_predictions s pid rv) pid]
      unfold markResolved
      rw [lookupPrediction_updatePrediction_self, hl]
      rfl
    unfold resolveRun resolvePrediction
    rw [hl']
    dsimp only
    rw [if_neg (by simpa using hu), if_pos (by rfl)]

/-- Witness for C3 at a concrete state: user 1 is not the owner of market 0
(user 2 is), so their resolve attempt fails with `NotOwner` and changes
nothing. -/
theorem resolve_precondition_order_witness :
    resolveRun stateOpenMarket 0 1 true 10 = (stateOpenMarket, some .notOwner) :=
  (resolve_precondition_order stateOpenMarket 0 1 true 10).2.1 openMarket
    (by decide) (by decide)

theorem votesOn_markResolved (s : DBState) (pid m : Nat) (rv : Bool) :
    votesOn (markResolved s pid rv) m = votesOn s m :=
  votesOn_eq_of_votes rfl m

theorem winnersOf_markResolved (s : DBState) (pid : Nat) (rv : Bool) :
    winnersOf (markResolved s pid rv) pid rv = winnersOf s pid rv := by
  unfold winnersOf; rw [votesOn_markResolved]

theorem losersOf_markResolved (s : DBState) (pid : Nat) (rv : Bool) :
    losersOf (markResolved s pid rv) pid rv = losersOf s pid rv := by
  unfold losersOf; rw [votesOn_markResolved]

theorem totalWinnerPointsOf_markResolved (s : DBState) (pid : Nat) (rv : Bool) :
    totalWinnerPointsOf (markResolved s pid rv) pid rv
      = totalWinnerPointsOf s pid rv := by
  unfold totalWinnerPointsOf; rw [winnersOf_markResolved]

theorem totalLoserPointsOf_markResolved (s : DBState) (pid : Nat) (rv : Bool) :
    totalLoserPointsOf (markResolved s pid rv) pid rv
      = totalLoserPointsOf s pid rv := by
  unfold totalLoserPointsOf; rw [losersOf_markResolved]

theorem settle_eq (s : DBState) (pid : Nat) (rv : Bool) :
    settle s pid rv
      = applyAllVoteStats rv (votesOn s pid)
          (if 0 < (winnersOf s pid rv).length
           then creditWinners (totalWinnerPointsOf s pid rv)
                  (totalLoserPointsOf s pid rv) (winnersOf s pid rv)
                  (markResolved s pid rv)
           else markResolved s pid rv) := by
  show (let s1 := markResolved s pid rv;
    let s2 :=
      if 0 < (winnersOf s1 pid rv).length then
        creditWinners (totalWinnerPointsOf s1 pid rv) (totalLoserPointsOf s1 pid rv)
          (winnersOf s1 pid rv) s1
      else s1;
    applyAllVoteStats rv (votesOn s1 pid) s2) = _
  simp only []
  rw [votesOn_markResolved, winnersOf_markResolved,
    totalWinnerPointsOf_markResolved, totalLoserPointsOf_markResolved]

/-- **C1**: on a successful resolve, each winning vote's owner is credited
exactly `pointsStaked + floor(pointsStaked * totalLoserPoints / totalWinnerPoints)`
(the claim's `floor(pointsStaked / totalWinnerPoints * totalLoserPoints)`
taken in exact arithmetic, `Int.fdiv`); each losing vote's owner is credited
nothing; and when no vote sides with the outcome, no balance changes at all.
Hypotheses: the data-model invariants that stakes are positive and that each
user has at most one vote on the market. -/
theorem resolve_payout_formula {s : DBState} {pid uid : Nat} {rv : Bool}
    {now : Int} {s' : DBState}
    (h : resolvePrediction s pid uid rv now = .ok s')
    (hpos : ∀ v ∈ votesOn s pid, 0 < v.pointsStaked)
    (hdist : (votesOn s pid).Pairwise (fun a b => a.userId ≠ b.userId)) :
    (∀ v ∈ votesOn s pid, v.stance = rv →
      userPoints s' v.userId = (userPoints s v.userId).map
        (fun x => x + (v.pointsStaked
          + (v.pointsStaked * totalLoserPointsOf s pid rv).fdiv
              (totalWinnerPointsOf s pid rv)))) ∧
    (∀ v ∈ votesOn s pid, ¬ v.stance = rv →
      userPoints s' v.userId = userPoints s v.userId) ∧
    ((∀ v ∈ votesOn s pid, ¬ v.stance = rv) →
      ∀ n, userPoints s' n = userPoints s n) := by
  obtain ⟨p, hl, hu, hr, ht, hs⟩ := resolve_ok_elim h
  subst hs
  rw [settle_eq]
  refine ⟨?_, ?_, ?_⟩
  · intro v hv hst
    have hvw : v ∈ winnersOf s pid rv :=
      List.mem_filter.mpr ⟨hv, by simp [hst]⟩
    have htw : 0 < totalWinnerPointsOf s pid rv :=
      stakeSum_pos_of_mem hvw (fun w hw => hpos w (List.mem_filter.mp hw).1)
    have htl : 0 ≤ totalLoserPointsOf s pid rv :=
      stakeSum_nonneg (fun w hw => (hpos w (List.mem_filter.mp hw).1).le)
    rw [applyAllVoteStats_userPoints,
      if_pos (List.length_pos.mpr (List.ne_nil_of_mem hvw))]
    have hpw : (winnersOf s pid rv).Pairwise (fun a b => a.userId ≠ b.userId) :=
      List.Pairwise.sublist (List.filter_sublist _) hdist
    rw [creditWinners_userPoints_mem _ _ _ _ v hpw hvw]
    have hcred : winnerCredit (totalWinnerPointsOf s pid rv)
          (totalLoserPointsOf s pid rv) v
        = v.pointsStaked
          + (v.pointsStaked * totalLoserPointsOf s pid rv).fdiv
              (totalWinnerPointsOf s pid rv) := by
      unfold winnerCredit
      by_cases hg : 0 < totalLoserPointsOf s pid rv
      · rw [if_pos ⟨hg, htw⟩]
      · have h0 : totalLoserPointsOf s pid rv = 0 :=
          le_antisymm (not_lt.mp hg) htl
        rw [if_neg (fun hc => hg hc.1), h0, mul_zero, Int.zero_fdiv]
    simp only [hcred]
    rfl
  · intro v hv hst
    rw [applyAllVoteStats_userPoints]
    by_cases hw : 0 < (winnersOf s pid rv).length
    · rw [if_pos hw]
      have hnm : v.userId ∉ (winnersOf s pid rv).map (·.userId) := by
        intro hmem
        obtain ⟨w, hwmem, hweq⟩ := List.mem_map.mp hmem
        have hwv : w ∈ votesOn s pid := (List.mem_filter.mp hwmem).1
        have hwst : w.stance = rv := by
          simpa using (List.mem_filter.mp hwmem).2
        have hne : w ≠ v := fun he => hst (he ▸ hwst)
        exact (List.Pairwise.forall (fun a b hab => Ne.symm hab) hdist
          hwv hv hne) hweq
      unfold userPoints
      rw [creditWinners_users_not_mem _ _ _ _ _ hnm]
      rfl
    · rw [if_neg hw]
      rfl
  · intro hall n
    have hwe : winnersOf s pid rv = [] := by
      unfold winnersOf
      refine List.filter_eq_nil_iff.mpr ?_
      intro a ha
      simp [hall a ha]
    rw [applyAllVoteStats_userPoints, hwe]
    rw [if_neg (by simp)]
    rfl

/-- Scenario C fixture: open market 0 owned by user 2; user 4 staked 30 on
"yes", user 5 staked 20 on "no" (their balances were already debited at
staking time). -/
def stateScenarioC : DBState :=
  ⟨fun n => if n = 2 then some (mkUser 100)
            else if n = 4 then some (mkUser 70)
            else if n = 5 then some (mkUser 80) else none,
   [(0, openMarket)], [⟨4, 0, true, 30⟩, ⟨5, 0, false, 20⟩]⟩

/-- Witness for C1 on scenario C: the winner who staked 30 is credited
30 + floor(30·20/30) = 50, taking their balance from 70 to 120. -/
theorem resolve_payout_formula_witness :
    userPoints ((resolveRun stateScenarioC 0 2 true 10).1) 4
      = (userPoints stateScenarioC 4).map
          (fun x => x + ((30 : Int)
            + ((30 : Int) * totalLoserPointsOf stateScenarioC 0 true).fdiv
                (totalWinnerPointsOf stateScenarioC 0 true))) ∧
    userPoints ((resolveRun stateScenarioC 0 2 true 10).1) 4 = some 120 := by
  have h : resolvePrediction stateScenarioC 0 2 true 10
      = .ok ((resolveRun stateScenarioC 0 2 true 10).1) := rfl
  exact ⟨(resolve_payout_formula h (by decide) (by decide)).1
      ⟨4, 0, true, 30⟩ (by decide) rfl, by decide⟩

/-- Floor-loss fixture: open market 0 owned by user 2; users 4 and 5 each
staked 1 on "yes", user 6 staked 1 on "no". -/
def stateFloorLoss : DBState :=
  ⟨fun n => if n = 2 then some (mkUser 100)
            else if n = 4 then some (mkUser 9)
            else if n = 5 then some (mkUser 9)
            else if n = 6 then some (mkUser 9) else none,
   [(0, openMarket)], [⟨4, 0, true, 1⟩, ⟨5, 0, true, 1⟩, ⟨6, 0, false, 1⟩]⟩

/-- **C2**: settlement never creates points — on any successful resolve with
positive stakes, the total credited to winners (stakes plus floored shares)
is at most `totalWinnerPoints + totalLoserPoints`; and because each share is
floored, the distributed winnings can be strictly less than the loser pool:
on `stateFloorLoss` (two winners of 1 against a loser pool of 1) each winner
gets `floor(1/2·1) = 0`, so the winnings distributed fall short of the
1-point loser pool. -/
theorem settlement_no_point_creation :
    (∀ (s : DBState) (pid uid : Nat) (rv : Bool) (now : Int) (s' : DBState),
      resolvePrediction s pid uid rv now = .ok s' →
      (∀ v ∈ votesOn s pid, 0 < v.pointsStaked) →
      ((winnersOf s pid rv).map
          (winnerCredit (totalWinnerPointsOf s pid rv)
            (totalLoserPointsOf s pid rv))).sum
        ≤ totalWinnerPointsOf s pid rv + totalLoserPointsOf s pid rv) ∧
    ((resolveRun stateFloorLoss 0 2 true 10).2 = none ∧
      ((winnersOf stateFloorLoss 0 true).map
          (winnerCredit (totalWinnerPointsOf stateFloorLoss 0 true)
            (totalLoserPointsOf stateFloorLoss 0 true))).sum
          - totalWinnerPointsOf stateFloorLoss 0 true
        < totalLoserPointsOf stateFloorLoss 0 true) := by
  constructor
  · intro s pid uid rv now s' _ hpos
    have htl : 0 ≤ totalLoserPointsOf s pid rv :=
      stakeSum_nonneg (fun w hw => (hpos w (List.mem_filter.mp hw).1).le)
    rw [creditSum_split]
    have hstake : stakeSum (winnersOf s pid rv) = totalWinnerPointsOf s pid rv :=
      rfl
    rw [hstake]
    refine add_le_add_left ?_ _
    by_cases hg : 0 < totalLoserPointsOf s pid rv
        ∧ 0 < totalWinnerPointsOf s pid rv
    · simp only [if_pos hg]
      refine le_trans (winnings_sum_le hg.2 (winnersOf s pid rv)) ?_
      rw [hstake, Int.fdiv_eq_ediv _ hg.2.le,
        Int.mul_ediv_cancel_left _ hg.2.ne']
    · simp only [if_neg hg]
      simpa using htl
  · exact ⟨by decide, by decide⟩

/-- Witness for C2's universal bound on the floor-loss fixture: the total
credited there is 2, within the 2 + 1 available. -/
theorem settlement_no_point_creation_witness :
    ((winnersOf stateFloorLoss 0 true).map
        (winnerCredit (totalWinnerPointsOf stateFloorLoss 0 true)
          (totalLoserPointsOf stateFloorLoss 0 true))).sum
      ≤ totalWinnerPointsOf stateFloorLoss 0 true
        + totalLoserPointsOf stateFloorLoss 0 true := by
  have h : resolvePrediction stateFloorLoss 0 2 true 10
      = .ok ((resolveRun stateFloorLoss 0 2 true 10).1) := rfl
  exact settlement_no_point_creation.1 stateFloorLoss 0 2 true 10 _ h (by decide)

/-! ### Structure of a successful stake -/

theorem updatePredictionStats_users (s : DBState) (pid : Nat) :
    (updatePredictionStats s pid).users = s.users := rfl

theorem updatePredictionStats_votes (s : DBState) (pid : Nat) :
    (updatePredictionStats s pid).votes = s.votes := rfl

theorem updateUserStats_votes (s : DBState) (uid : Nat) :
    (updateUserStats s uid).votes = s.votes := rfl

theorem updateUserStats_predictions (s : DBState) (uid : Nat) :
    (updateUserStats s uid).predictions = s.predictions := rfl

theorem updateUserStats_userPoints (s : DBState) (uid n : Nat) :
    userPoints (updateUserStats s uid) n = userPoints s n := by
  unfold updateUserStats userPoints
  by_cases h : n = uid
  · rw [h, updateUser_users_self]
    cases s.users uid <;> rfl
  · rw [updateUser_users_ne _ h]

theorem lookupPrediction_updatePredictionStats_self (s : DBState) (pid : Nat) :
    lookupPrediction (updatePredictionStats s pid) pid
      = (lookupPrediction s pid).map (fun p =>
          { p with
            totalStakes := ((votesOn s pid).length : Int)
            totalPoints := stakeSum (votesOn s pid)
            yesVotes := (((votesOn s pid).filter (fun v => v.stance)).length : Int)
            noVotes := (((votesOn s pid).filter (fun v => !v.stance)).length : Int)
            yesPoints := stakeSum ((votesOn s pid).filter (fun v => v.stance))
            noPoints := stakeSum ((votesOn s pid).filter (fun v => !v.stance)) }) := by
  unfold updatePredictionStats
  exact lookupPrediction_updatePrediction_self s pid _

theorem votesOn_insert (s : DBState) (uid pid : Nat) (stance : Bool)
    (amt : Int) :
    votesOn { s with votes := s.votes ++ [⟨uid, pid, stance, amt⟩] } pid
      = votesOn s pid ++ [⟨uid, pid, stance, amt⟩] := by
  unfold votesOn
  rw [List.filter_append]
  simp

theorem votesOn_insert_ne (s : DBState) {uid pid m : Nat} (hne : m ≠ pid)
    (stance : Bool) (amt : Int) :
    votesOn { s with votes := s.votes ++ [⟨uid, pid, stance, amt⟩] } m
      = votesOn s m := by
  unfold votesOn
  rw [List.filter_append]
  simp [Ne.symm hne]

theorem placeStake_ok_elim {s : DBState} {uid pid : Nat} {stance : Bool}
    {amt : Int} {s' : DBState}
    (h : placeStake s uid pid stance amt = .ok s') :
    ∃ u, getUserVote s uid pid = none ∧ s.users uid = some u ∧
      ¬ u.points < amt ∧
      s' = updateUserStats (updatePredictionStats (updateUser
            { s with votes := s.votes ++ [⟨uid, pid, stance, amt⟩] } uid
            (fun w => { w with points := w.points - amt })) pid) uid := by
  unfold placeStake at h
  rw [if_neg (by simp [insertVoteSchemaAccepts])] at h
  by_cases hv : (getUserVote s uid pid).isSome = true
  · rw [if_pos hv] at h; exact Except.noConfusion h
  · rw [if_neg hv] at h
    have hvn : getUserVote s uid pid = none := by
      cases hgv : getUserVote s uid pid
      · rfl
      · rw [hgv] at hv; simp at hv
    cases hu : s.users uid with
    | none => rw [hu] at h; exact Except.noConfusion h
    | some u =>
      rw [hu] at h
      dsimp only at h
      by_cases hlt : u.points < amt
      · rw [if_pos hlt] at h; exact Except.noConfusion h
      · rw [if_neg hlt] at h
        exact ⟨u, hvn, rfl, hlt, (Except.ok.inj h).symm⟩

/-- **C6**: in the vote transaction the already-voted check precedes the
balance check (an existing vote yields `AlreadyVoted` no matter the
balance); otherwise, for an existing user, `InsufficientFunds` occurs
exactly when `balance < stakeAmount`; on either failure the transaction
rolls back, so `placeStakeRun` returns the pre-state unchanged. -/
theorem stake_check_order (s : DBState) (uid pid : Nat) (stance : Bool)
    (amt : Int) :
    ((getUserVote s uid pid).isSome = true →
      placeStakeRun s uid pid stance amt = (s, some .alreadyVoted)) ∧
    (∀ u, getUserVote s uid pid = none → s.users uid = some u →
      u.points < amt →
      placeStakeRun s uid pid stance amt = (s, some .insufficientPoints)) ∧
    (∀ u, getUserVote s uid pid = none → s.users uid = some u →
      ¬ u.points < amt → (placeStakeRun s uid pid stance amt).2 = none) := by
  refine ⟨?_, ?_, ?_⟩
  · intro hv
    unfold placeStakeRun placeStake
    rw [if_neg (by simp [insertVoteSchemaAccepts]), if_pos hv]
  · intro u hv hu hlt
    unfold placeStakeRun placeStake
    rw [if_neg (by simp [insertVoteSchemaAccepts]), if_neg (by simp [hv]), hu]
    dsimp only
    rw [if_pos hlt]
  · intro u hv hu hlt
    unfold placeStakeRun placeStake
    rw [if_neg (by simp [insertVoteSchemaAccepts]), if_neg (by simp [hv]), hu]
    dsimp only
    rw [if_neg hlt]

/-- Witness for C6: user 1 holds 100 points and tries to stake 500; the call
fails with insufficient points and the state is unchanged. -/
theorem stake_check_order_witness :
    placeStakeRun stateOpenMarket 1 0 true 500
      = (stateOpenMarket, some .insufficientPoints) :=
  (stake_check_order stateOpenMarket 1 0 true 500).2.1 (mkUser 100)
    (by decide) (by decide) (by decide)

/-- **C7**: a stake by an existing user with no prior vote on the market,
`0 < stakeAmount ≤ balance`, succeeds: exactly one vote row is appended,
the balance drops by exactly the stake (hence stays ≥ 0), and the
recomputed stance-side point aggregate of the market equals the old
stance-side stake sum plus the new stake. -/
theorem stake_success_effects {s : DBState} {uid pid : Nat} {stance : Bool}
    {amt : Int} {u : User}
    (hnv : getUserVote s uid pid = none)
    (hu : s.users uid = some u)
    (hpos : 0 < amt) (hle : amt ≤ u.points) :
    ∃ s', placeStake s uid pid stance amt = .ok s' ∧
      s'.votes = s.votes ++ [⟨uid, pid, stance, amt⟩] ∧
      userPoints s' uid = some (u.points - amt) ∧
      0 ≤ u.points - amt ∧
      (∀ p', lookupPrediction s' pid = some p' →
        (if stance then p'.yesPoints else p'.noPoints)
          = stakeSum ((votesOn s pid).filter (fun v => v.stance == stance))
            + amt) := by
  have hsucc : placeStake s uid pid stance amt
      = .ok (updateUserStats (updatePredictionStats (updateUser
          { s with votes := s.votes ++ [⟨uid, pid, stance, amt⟩] } uid
          (fun w => { w with points := w.points - amt })) pid) uid) := by
    unfold placeStake
    rw [if_neg (by simp [insertVoteSchemaAccepts]), if_neg (by simp [hnv]), hu]
    dsimp only
    rw [if_neg (not_lt.mpr hle)]
  refine ⟨_, hsucc, rfl, ?_, by omega, ?_⟩
  · rw [updateUserStats_userPoints]
    unfold userPoints
    rw [show (updatePredictionStats (updateUser
        { s with votes := s.votes ++ [⟨uid, pid, stance, amt⟩] } uid
        (fun w => { w with points := w.points - amt })) pid).users
      = (updateUser { s with votes := s.votes ++ [⟨uid, pid, stance, amt⟩] } uid
          (fun w => { w with points := w.points - amt })).users from rfl]
    rw [updateUser_users_self]
    rw [show ({ s with votes := s.votes ++ [⟨uid, pid, stance, amt⟩] }
        : DBState).users = s.users from rfl, hu]
    rfl
  · intro p' hp'
    rw [lookupPrediction_eq_of_predictions
        (updateUserStats_predictions _ _) pid,
      lookupPrediction_updatePredictionStats_self] at hp'
    have hvv : votesOn (updateUser
        { s with votes := s.votes ++ [⟨uid, pid, stance, amt⟩] } uid
        (fun w => { w with points := w.points - amt })) pid
      = votesOn s pid ++ [⟨uid, pid, stance, amt⟩] := by
      rw [votesOn_eq_of_votes (updateUser_votes _ _ _) pid, votesOn_insert]
    rw [hvv] at hp'
    rw [show lookupPrediction (updateUser
        { s with votes := s.votes ++ [⟨uid, pid, stance, amt⟩] } uid
        (fun w => { w with points := w.points - amt })) pid
      = lookupPrediction s pid from rfl] at hp'
    cases hq : lookupPrediction s pid with
    | none => rw [hq] at hp'; exact Option.noConfusion hp'
    | some q =>
      rw [hq] at hp'
      have hp'' := (Option.some.inj hp').symm
      subst hp''
      cases stance
      · rw [if_neg Bool.false_ne_true]
        dsimp only
        have hcg : List.filter (fun v : Vote => v.stance == false) (votesOn s pid)
            = List.filter (fun v : Vote => !v.stance) (votesOn s pid) :=
          List.filter_congr (fun x _ => by cases hx : x.stance <;> simp [hx])
        rw [List.filter_append,
          show List.filter (fun v : Vote => !v.stance) [⟨uid, pid, false, amt⟩]
            = [⟨uid, pid, false, amt⟩] from rfl,
          stakeSum_append_single, hcg]
      · rw [if_pos rfl]
        dsimp only
        have hcg : List.filter (fun v : Vote => v.stance == true) (votesOn s pid)
            = List.filter (fun v : Vote => v.stance) (votesOn s pid) :=
          List.filter_congr (fun x _ => by cases hx : x.stance <;> simp [hx])
        rw [List.filter_append,
          show List.filter (fun v : Vote => v.stance) [⟨uid, pid, true, amt⟩]
            = [⟨uid, pid, true, amt⟩] from rfl,
          stakeSum_append_single, hcg]

/-- Witness for C7 (scenario A): user 1 with balance 100 stakes 30 on
"yes" of open market 0 — the stake succeeds, the balance becomes 70, and
the market's yes-points aggregate becomes 0 + 30. -/
theorem stake_success_effects_witness :
    ∃ s', placeStake stateOpenMarket 1 0 true 30 = .ok s' ∧
      s'.votes = stateOpenMarket.votes ++ [⟨1, 0, true, 30⟩] ∧
      userPoints s' 1 = some ((mkUser 100).points - 30) ∧
      0 ≤ (mkUser 100).points - 30 ∧
      (∀ p', lookupPrediction s' 0 = some p' →
        (if true then p'.yesPoints else p'.noPoints)
          = stakeSum ((votesOn stateOpenMarket 0).filter
              (fun v => v.stance == true)) + 30) :=
  stake_success_effects (by decide) (by decide) (by decide) (by decide)

/-! ### Aggregate consistency and user-stats overwriting -/

theorem lookupPrediction_updatePredictionStats_ne (s : DBState) {pid m : Nat}
    (hne : m ≠ pid) :
    lookupPrediction (updatePredictionStats s pid) m = lookupPrediction s m := by
  unfold updatePredictionStats
  exact lookupPrediction_updatePrediction_ne s hne _

/-- The aggregate columns stored on prediction `pid` agree with the pure
recomputation from the committed vote rows of that market. -/
def statsConsistent (s : DBState) (pid : Nat) : Prop :=
  ∀ p, lookupPrediction s pid = some p →
    p.totalStakes = ((votesOn s pid).length : Int) ∧
    p.totalPoints = stakeSum (votesOn s pid) ∧
    p.yesVotes = (((votesOn s pid).filter (fun v => v.stance)).length : Int) ∧
    p.noVotes = (((votesOn s pid).filter (fun v => !v.stance)).length : Int) ∧
    p.yesPoints = stakeSum ((votesOn s pid).filter (fun v => v.stance)) ∧
    p.noPoints = stakeSum ((votesOn s pid).filter (fun v => !v.stance))

/-- **C9**: after a successful stake the staked market's stored aggregates
equal the recomputation from its (new) vote set; a stake preserves the
consistency of every other market; and a successful resolve preserves the
consistency of every market (it changes no votes and no aggregate
columns). -/
theorem aggregates_recomputed (s : DBState) :
    (∀ (uid pid : Nat) (stance : Bool) (amt : Int) (s' : DBState),
      placeStake s uid pid stance amt = .ok s' → statsConsistent s' pid) ∧
    (∀ (uid pid : Nat) (stance : Bool) (amt : Int) (s' : DBState) (m : Nat),
      placeStake s uid pid stance amt = .ok s' → m ≠ pid →
      statsConsistent s m → statsConsistent s' m) ∧
    (∀ (pid uid : Nat) (rv : Bool) (now : Int) (s' : DBState) (m : Nat),
      resolvePrediction s pid uid rv now = .ok s' →
      statsConsistent s m → statsConsistent s' m) := by
  refine ⟨?_, ?_, ?_⟩
  · intro uid pid stance amt s' h
    obtain ⟨u, hnv, hu, hlt, hs⟩ := placeStake_ok_elim h
    subst hs
    intro p hp
    rw [lookupPrediction_eq_of_predictions (updateUserStats_predictions _ _) pid,
      lookupPrediction_updatePredictionStats_self] at hp
    cases hql : lookupPrediction (updateUser
        { s with votes := s.votes ++ [⟨uid, pid, stance, amt⟩] } uid
        (fun w => { w with points := w.points - amt })) pid with
    | none => rw [hql] at hp; exact Option.noConfusion hp
    | some q =>
      rw [hql] at hp
      have hpq := (Option.some.inj hp).symm
      subst hpq
      exact ⟨rfl, rfl, rfl, rfl, rfl, rfl⟩
  · intro uid pid stance amt s' m h hne hsc
    obtain ⟨u, hnv, hu, hlt, hs⟩ := placeStake_ok_elim h
    subst hs
    intro p hp
    rw [lookupPrediction_eq_of_predictions (updateUserStats_predictions _ _) m,
      lookupPrediction_updatePredictionStats_ne _ hne] at hp
    have hp' : lookupPrediction s m = some p := hp
    have hvm : votesOn (updateUserStats (updatePredictionStats (updateUser
        { s with votes := s.votes ++ [⟨uid, pid, stance, amt⟩] } uid
        (fun w => { w with points := w.points - amt })) pid) uid) m
      = votesOn s m := votesOn_insert_ne s hne stance amt
    rw [hvm]
    exact hsc p hp'
  · intro pid uid rv now s' m h hsc
    obtain ⟨p0, hl, huo, hr, ht, hs⟩ := resolve_ok_elim h
    subst hs
    intro p hp
    have hvm : votesOn (settle s pid rv) m = votesOn s m :=
      votesOn_eq_of_votes (settle_votes s pid rv) m
    rw [hvm]
    by_cases hm : m = pid
    · subst hm
      rw [lookupPrediction_eq_of_predictions (settle_predictions s m rv) m] at hp
      unfold markResolved at hp
      rw [lookupPrediction_updatePrediction_self] at hp
      cases hql : lookupPrediction s m with
      | none => rw [hql] at hp; exact Option.noConfusion hp
      | some q =>
        rw [hql] at hp
        have hpq := (Option.some.inj hp).symm
        subst hpq
        exact hsc q hql
    · rw [lookupPrediction_eq_of_predictions (settle_predictions s pid rv) m] at hp
      unfold markResolved at hp
      rw [lookupPrediction_updatePrediction_ne s hm] at hp
      exact hsc p hp

/-- Witness for C9: after user 1 stakes 30 on open market 0, the stored
aggregates of market 0 match the recomputation from its votes. -/
theorem aggregates_recomputed_witness :
    statsConsistent ((placeStakeRun stateOpenMarket 1 0 true 30).1) 0 := by
  have h : placeStake stateOpenMarket 1 0 true 30
      = .ok ((placeStakeRun stateOpenMarket 1 0 true 30).1) := rfl
  exact (aggregates_recomputed stateOpenMarket).1 1 0 true 30 _ h

theorem countAuthored_updatePrediction (s : DBState) (pid uid : Nat)
    (f : Prediction → Prediction) (hf : ∀ q, (f q).userId = q.userId) :
    countAuthored (updatePrediction s pid f) uid = countAuthored s uid := by
  unfold countAuthored updatePrediction
  rw [List.filter_map, List.length_map]
  have hcg : List.filter
      ((fun e : Nat × Prediction => e.2.userId == uid)
        ∘ fun e => if e.1 == pid then (e.1, f e.2) else e) s.predictions
      = List.filter (fun e : Nat × Prediction => e.2.userId == uid)
          s.predictions := by
    refine List.filter_congr ?_
    intro e _
    by_cases h : e.1 = pid
    · have hb : (e.1 == pid) = true := beq_iff_eq.mpr h
      simp [Function.comp, hb, hf]
    · have hb : (e.1 == pid) = false := by simp [h]
      simp [Function.comp, hb]
  rw [hcg]

theorem countAuthored_updatePredictionStats (s : DBState) (pid uid : Nat) :
    countAuthored (updatePredictionStats s pid) uid = countAuthored s uid := by
  unfold updatePredictionStats
  exact countAuthored_updatePrediction s pid uid _ (fun q => rfl)

theorem countAuthored_markResolved (s : DBState) (pid : Nat) (rv : Bool)
    (uid : Nat) :
    countAuthored (markResolved s pid rv) uid = countAuthored s uid := by
  unfold markResolved
  exact countAuthored_updatePrediction s pid uid _ (fun q => rfl)

/-- **C10**: `updateUserStats` — run after every prediction creation and at
the end of every vote transaction — overwrites the user's
`total_predictions` with the count of predictions that user has authored,
regardless of the column's previous value; so the per-market increments of
`resolvePrediction` are discarded by the user's next stake. -/
theorem user_stats_overwrite :
    (∀ (s : DBState) (uid : Nat) (u' : User),
      (updateUserStats s uid).users uid = some u' →
      u'.totalPredictions = countAuthored s uid) ∧
    (∀ (s : DBState) (pid uid : Nat) (rv : Bool) (now : Int) (s₁ : DBState)
        (uid2 pid2 : Nat) (stance : Bool) (amt : Int) (s₂ : DBState)
        (u' : User),
      resolvePrediction s pid uid rv now = .ok s₁ →
      placeStake s₁ uid2 pid2 stance amt = .ok s₂ →
      s₂.users uid2 = some u' →
      u'.totalPredictions = countAuthored s uid2) := by
  have key : ∀ (s : DBState) (uid : Nat) (u' : User),
      (updateUserStats s uid).users uid = some u' →
      u'.totalPredictions = countAuthored s uid := by
    intro s uid u' h
    unfold updateUserStats at h
    rw [updateUser_users_self] at h
    cases hu : s.users uid with
    | none => rw [hu] at h; exact Option.noConfusion h
    | some w =>
      rw [hu] at h
      have hw := Option.some.inj h
      rw [← hw]
  refine ⟨key, ?_⟩
  intro s pid uid rv now s₁ uid2 pid2 stance amt s₂ u' hres hstake hu'
  obtain ⟨u, hnv, hu, hlt, hs2⟩ := placeStake_ok_elim hstake
  obtain ⟨p0, hl, huo, hr, ht, hs1⟩ := resolve_ok_elim hres
  subst hs2
  have h1 := key _ uid2 u' hu'
  rw [h1, countAuthored_updatePredictionStats]
  subst hs1
  have h2 : countAuthored (updateUser
      { settle s pid rv with
        votes := (settle s pid rv).votes ++ [⟨uid2, pid2, stance, amt⟩] } uid2
      (fun w => { w with points := w.points - amt })) uid2
      = countAuthored (settle s pid rv) uid2 := rfl
  rw [h2, countAuthored_eq_of_predictions (settle_predictions s pid rv) uid2,
    countAuthored_markResolved]

/-- A user row whose `total_predictions` column holds a stale value (5)
even though they authored no prediction. -/
def staleUser : User := ⟨100, 0, 5, 0⟩

/-- User 1 has a stale `total_predictions` of 5; the only prediction is
authored by user 2. -/
def stateStale : DBState :=
  ⟨fun n => if n = 1 then some staleUser else none, [(0, openMarket)], []⟩

/-- Witness for C10: running `updateUserStats` on the stale user resets
`total_predictions` from 5 to the authored count 0. -/
theorem user_stats_overwrite_witness :
    (updateUserStats stateStale 1).users 1 = some ⟨100, 0, 0, 0⟩ ∧
    (⟨100, 0, 0, 0⟩ : User).totalPredictions = countAuthored stateStale 1 :=
  ⟨by decide, user_stats_overwrite.1 stateStale 1 ⟨100, 0, 0, 0⟩ (by decide)⟩
